import Mathlib

/-!
Verification of the MCP patch engine (src/mcp/server.ts).

The engine is embedded shallowly: JavaScript strings are Lean `String`
(a list of characters in this toolchain), and the handful of string
primitives the source uses (startsWith, includes, trim, toLowerCase,
split, join, replace of CRLF) are defined below on `List Char` with the
exact JavaScript semantics the code relies on.  The filesystem is a
finite map from absolute path to content, extended with a table of
paths whose unlink raises an error, so that the catch-all on delete can
be observed.
-/

namespace MCP

/-! ## Character-list primitives mirroring the JavaScript string API -/

/-- JavaScript `hay.startsWith(pat)` on character lists. -/
def startsWithL : List Char → List Char → Bool
  | _, [] => true
  | [], _ :: _ => false
  | c :: cs, p :: ps => c == p && startsWithL cs ps

/-- JavaScript `hay.includes(pat)` on character lists. -/
def includesL : List Char → List Char → Bool
  | [], pat => pat.isEmpty
  | c :: cs, pat => startsWithL (c :: cs) pat || includesL cs pat

/-- JavaScript `s.split(sep)` with a single-character separator: keeps
empty fields, never returns an empty list. -/
def splitCh (sep : Char) : List Char → List (List Char)
  | [] => [[]]
  | c :: cs =>
    match splitCh sep cs with
    | [] => [[]]
    | r :: rs => if c == sep then [] :: r :: rs else (c :: r) :: rs

/-- JavaScript `arr.join(sep)` with a single-character separator. -/
def joinCh (sep : Char) : List (List Char) → List Char
  | [] => []
  | [l] => l
  | l :: l2 :: ls => l ++ sep :: joinCh sep (l2 :: ls)

/-- JavaScript `s.replace(/\r\n/g, "\n")`: left-to-right, non-overlapping. -/
def crlfL : List Char → List Char
  | [] => []
  | [c] => [c]
  | c :: c2 :: cs =>
    if c == '\r' && c2 == '\n' then '\n' :: crlfL cs
    else c :: crlfL (c2 :: cs)

/-- JavaScript `s.trim()` (whitespace at both ends). -/
def trimL (cs : List Char) : List Char :=
  ((cs.dropWhile Char.isWhitespace).reverse.dropWhile Char.isWhitespace).reverse

def jsStartsWith (s pat : String) : Bool := startsWithL s.data pat.data

def jsIncludes (s pat : String) : Bool := includesL s.data pat.data

def jsTrim (s : String) : String := ⟨trimL s.data⟩

def jsToLower (s : String) : String := ⟨s.data.map Char.toLower⟩

def jsDropStr (s : String) (n : Nat) : String := ⟨s.data.drop n⟩

def jsSplit (sep : Char) (s : String) : List String := (splitCh sep s.data).map String.mk

def jsJoinNL (ls : List String) : String := ⟨joinCh '\n' (ls.map String.data)⟩

def crlfNorm (s : String) : String := ⟨crlfL s.data⟩

def jsEndsWith (s pat : String) : Bool := startsWithL s.data.reverse pat.data.reverse

/-! ## Path resolution (node `path.resolve` / `path.normalize`, POSIX)

`resolveSegs` processes the `/`-separated segments of an absolute path:
empty and `.` segments vanish, `..` pops the last kept segment (a `..`
at the root is dropped), everything else is kept. -/

def resolveSegs (segs : List String) : List String :=
  segs.foldl
    (fun acc seg =>
      if seg = "" || seg = "." then acc
      else if seg = ".." then acc.dropLast
      else acc ++ [seg]) []

def joinPath (segs : List String) : String :=
  ⟨'/' :: joinCh '/' (segs.map String.data)⟩

/-- `path.resolve(p)` / `path.normalize(p)` for an absolute POSIX path. -/
def resolveAbs (p : String) : String := joinPath (resolveSegs (jsSplit '/' p))

/-- `path.resolve(root, rel)` with `root` absolute. -/
def resolvePath (root rel : String) : String :=
  if jsStartsWith rel "/" then resolveAbs rel else resolveAbs (root ++ "/" ++ rel)

/-- Embedding of `withinRoot` (src/mcp/server.ts, lines 29-44): resolve
the candidate against the root, lowercase both normalized paths, and
accept exactly when the candidate string starts with the root string. -/
def withinRoot (rootIn relPath : String) : Except String String :=
  let ROOT := resolveAbs rootIn
  let rel := if (jsTrim relPath).data.isEmpty then "." else relPath
  let abs := resolvePath ROOT rel
  let rootNorm := jsToLower (resolveAbs ROOT)
  let absNorm := jsToLower (resolveAbs abs)
  if jsStartsWith absNorm rootNorm then Except.ok abs
  else
    Except.error
      ("Refusing to write outside root. rel=\"" ++ relPath ++ "\", root=\"" ++ ROOT ++ "\"")

/-! ## Patch data model (src/mcp/server.ts, lines 49-65) -/

inductive LineKind
  | context
  | add
  | remove
deriving DecidableEq

structure HunkRange where
  start : Nat
  count : Nat
deriving DecidableEq

structure PatchHunkLine where
  type : LineKind
  text : String
deriving DecidableEq

structure PatchHunk where
  oldRange : HunkRange
  newRange : HunkRange
  lines : List PatchHunkLine
deriving DecidableEq

inductive PatchOp
  | add
  | update
  | delete
deriving DecidableEq

structure ParsedPatch where
  op : PatchOp
  path : String
  newContent : Option String
  hunks : List PatchHunk
deriving DecidableEq

/-! ## Parser (src/mcp/server.ts, lines 70-147) -/

/-- Longest run of decimal digits at the head of the list, with the rest. -/
def takeDigitsAux : List Char → List Char × List Char
  | [] => ([], [])
  | c :: cs =>
    if c.isDigit then
      let r := takeDigitsAux cs
      (c :: r.1, r.2)
    else ([], c :: cs)

def digitsVal (ds : List Char) : Nat :=
  ds.foldl (fun n c => n * 10 + (c.toNat - 48)) 0

/-- Greedy decimal number at the head, requiring at least one digit
(the behavior of a regex group over one-or-more digits). -/
def takeNum (cs : List Char) : Option (Nat × List Char) :=
  match takeDigitsAux cs with
  | ([], _) => none
  | (ds, rest) => some (digitsVal ds, rest)

/-- Strip a literal pattern from the head, returning the remainder. -/
def stripL : List Char → List Char → Option (List Char)
  | cs, [] => some cs
  | [], _ :: _ => none
  | c :: cs, p :: ps => if c == p then stripL cs ps else none

/-- Match of the hunk-header regex anchored at the start of the line
(the source regex has no end anchor, so trailing text is ignored). -/
def matchHunkHeader (l : String) : Option (Nat × Nat × Nat × Nat) := do
  let r1 ← stripL l.data "@@ -".data
  let (n1, r2) ← takeNum r1
  let r3 ← stripL r2 ",".data
  let (n2, r4) ← takeNum r3
  let r5 ← stripL r4 " +".data
  let (n3, r6) ← takeNum r5
  let r7 ← stripL r6 ",".data
  let (n4, r8) ← takeNum r7
  let _ ← stripL r8 " @@".data
  some (n1, n2, n3, n4)

/-- First Add/Update/Delete header line, in source order; the path is
the rest of the line after the marker, trimmed (the source's
replace-then-trim under the startsWith guard). -/
def findHeader : List String → Option (PatchOp × String)
  | [] => none
  | l :: ls =>
    if jsStartsWith l "*** Add File:" then
      some (PatchOp.add, jsTrim (jsDropStr l ("*** Add File:".length)))
    else if jsStartsWith l "*** Update File:" then
      some (PatchOp.update, jsTrim (jsDropStr l ("*** Update File:".length)))
    else if jsStartsWith l "*** Delete File:" then
      some (PatchOp.delete, jsTrim (jsDropStr l ("*** Delete File:".length)))
    else findHeader ls

def hunkPush (cur : Option PatchHunk) (acc : List PatchHunk) : List PatchHunk :=
  match cur with
  | none => acc
  | some c => acc ++ [c]

/-- The hunk-collection loop of the update branch: a header line opens a
new hunk (flushing the current one); other lines are classified only
while a hunk is open. -/
def collectHunks : List String → Option PatchHunk → List PatchHunk → List PatchHunk
  | [], cur, acc => hunkPush cur acc
  | l :: ls, cur, acc =>
    match matchHunkHeader l with
    | some (a, b, c, d) =>
      collectHunks ls
        (some { oldRange := ⟨a, b⟩, newRange := ⟨c, d⟩, lines := [] })
        (hunkPush cur acc)
    | none =>
      match cur with
      | none => collectHunks ls none acc
      | some cu =>
        if jsStartsWith l "+" && !(jsStartsWith l "+++") then
          collectHunks ls
            (some { cu with lines := cu.lines ++ [⟨LineKind.add, jsDropStr l 1⟩] }) acc
        else if jsStartsWith l "-" && !(jsStartsWith l "---") then
          collectHunks ls
            (some { cu with lines := cu.lines ++ [⟨LineKind.remove, jsDropStr l 1⟩] }) acc
        else if !(jsStartsWith l "***") && !(jsStartsWith l "@@") then
          collectHunks ls
            (some { cu with lines := cu.lines ++ [⟨LineKind.context, l⟩] }) acc
        else collectHunks ls (some cu) acc

/-- Embedding of `parseSimplifiedPatch` (src/mcp/server.ts, lines 70-147). -/
def parseSimplifiedPatch (raw : String) : Except String ParsedPatch :=
  let normalized := crlfNorm raw
  let lines := jsSplit '\n' normalized
  if !(jsIncludes (lines.headD "") "*** Begin Patch") then
    Except.error "Patch missing *** Begin Patch"
  else
    match findHeader lines with
    | none => Except.error "Patch must contain one of Add/Update/Delete headers"
    | some (op, filePath) =>
      if filePath = "" then
        Except.error "Patch must contain one of Add/Update/Delete headers"
      else
        match op with
        | PatchOp.delete =>
          Except.ok { op := PatchOp.delete, path := filePath, newContent := none, hunks := [] }
        | PatchOp.add =>
          let contentLines :=
            (lines.filter (fun l => jsStartsWith l "+" && !(jsStartsWith l "+++"))).map
              (fun l => jsDropStr l 1)
          let final := jsJoinNL contentLines ++ (if contentLines.isEmpty then "" else "\n")
          Except.ok { op := PatchOp.add, path := filePath, newContent := some final, hunks := [] }
        | PatchOp.update =>
          Except.ok
            { op := PatchOp.update, path := filePath, newContent := none,
              hunks := collectHunks lines none [] }

/-! ## Applier (src/mcp/server.ts, lines 152-194) -/

/-- The replacement block of a hunk, built exactly as the source loop
does: push the text of add and context lines, skip remove lines. -/
def replacementOf (h : PatchHunk) : List String :=
  h.lines.foldl
    (fun acc ln =>
      match ln.type with
      | LineKind.add => acc ++ [ln.text]
      | LineKind.context => acc ++ [ln.text]
      | LineKind.remove => acc) []

/-- JavaScript `arr.splice(start, delCnt, ...items)` (result array):
negative start counts from the end, start and the delete count are
clamped to the array bounds. -/
def jsSplice (arr : List String) (start delCnt : Int) (items : List String) : List String :=
  let len : Int := (arr.length : Int)
  let s : Int := if start < 0 then max (len + start) 0 else min start len
  let d : Int := max 0 (min delCnt (len - s))
  arr.take s.toNat ++ items ++ arr.drop (s.toNat + d.toNat)

/-- The hunk loop of the update branch: for each hunk in patch order,
splice at `oldRange.start - 1`, deleting `oldRange.count` lines and
inserting the replacement block. -/
def applyHunks (ls : List String) (hs : List PatchHunk) : List String :=
  hs.foldl
    (fun acc h =>
      jsSplice acc ((h.oldRange.start : Int) - 1) (h.oldRange.count : Int) (replacementOf h))
    ls

/-- The pure content transformation of the update branch: normalize
CRLF, split on newline, apply the hunks, join with newline and append
one newline. -/
def applyUpdateContent (original : String) (hs : List PatchHunk) : String :=
  jsJoinNL (applyHunks (jsSplit '\n' (crlfNorm original)) hs) ++ "\n"

/-! ## Filesystem model -/

/-- Filesystem state: contents by absolute path, plus the paths whose
unlink raises a given error (modelling e.g. a permission failure). -/
structure FS where
  files : List (String × String)
  unlinkErr : List (String × String)
deriving DecidableEq

def lookupA : List (String × String) → String → Option String
  | [], _ => none
  | (k, v) :: rest, p => if k = p then some v else lookupA rest p

def readFS (fs : FS) (p : String) : Option String := lookupA fs.files p

def writeFS (fs : FS) (p c : String) : FS :=
  { fs with files := (p, c) :: fs.files.filter (fun kv => kv.1 ≠ p) }

/-- Unlink on the model filesystem: fails with the configured error, or
with ENOENT when the file is absent; otherwise removes the file. -/
def unlinkFS (fs : FS) (p : String) : Except String FS :=
  match lookupA fs.unlinkErr p with
  | some msg => Except.error msg
  | none =>
    match lookupA fs.files p with
    | none => Except.error ("ENOENT: no such file or directory, unlink " ++ p)
    | some _ => Except.ok { fs with files := fs.files.filter (fun kv => kv.1 ≠ p) }

/-- The delete branch: unlink with a catch-all that swallows every
error and leaves the state as it was. -/
def deleteCaught (fs : FS) (p : String) : FS :=
  match unlinkFS fs p with
  | Except.ok fs2 => fs2
  | Except.error _ => fs

/-- Embedding of `applyParsedPatch` (src/mcp/server.ts, lines 152-188). -/
def applyParsedPatch (ROOT : String) (fs : FS) (p : ParsedPatch) : Except String FS :=
  match withinRoot ROOT p.path with
  | Except.error e => Except.error e
  | Except.ok abs =>
    match p.op with
    | PatchOp.delete => Except.ok (deleteCaught fs abs)
    | PatchOp.add => Except.ok (writeFS fs abs (p.newContent.getD ""))
    | PatchOp.update =>
      match readFS fs abs with
      | none => Except.error ("File not found for update: " ++ p.path)
      | some original => Except.ok (writeFS fs abs (applyUpdateContent original p.hunks))

/-! ## Request facade (src/mcp/server.ts, lines 199-249) -/

inductive Resp
  | ok (path : String) (op : String)
  | err (msg : String)
deriving DecidableEq

def opName : PatchOp → String
  | PatchOp.add => "add"
  | PatchOp.update => "update"
  | PatchOp.delete => "delete"

/-- The apply_patch endpoint: parse, apply, answer ok with path and op,
or answer the thrown message; a throw leaves the filesystem as it was
at the point of failure. -/
def handleApplyPatch (ROOT : String) (fs : FS) (raw : String) : FS × Resp :=
  match parseSimplifiedPatch raw with
  | Except.error e => (fs, Resp.err e)
  | Except.ok p =>
    match applyParsedPatch ROOT fs p with
    | Except.error e => (fs, Resp.err e)
    | Except.ok fs2 => (fs2, Resp.ok p.path (opName p.op))

/-- The rewrite_file endpoint: `relPath = none` models an absent or
non-string path, `content = none` an absent or non-string content. -/
def handleRewriteFile (ROOT : String) (fs : FS) (relPath : Option String)
    (content : Option String) : FS × Resp :=
  match relPath with
  | none => (fs, Resp.err "Missing or invalid 'path' for rewrite_file")
  | some p =>
    if (jsTrim p).data.isEmpty then (fs, Resp.err "Missing or invalid 'path' for rewrite_file")
    else
      match withinRoot ROOT p with
      | Except.error e => (fs, Resp.err e)
      | Except.ok abs => (writeFS fs abs (content.getD ""), Resp.ok p "rewrite")

/-! ## Definitions following the words of the specification

These are the comparison points for the refinement claims: they restate
what the spec says the applier and parser compute, independently of the
source loops above. -/

/-- The replacement block as the spec words it: the texts of the hunk's
add and context lines, in hunk-line order. -/
def specReplacement (h : PatchHunk) : List String :=
  (h.lines.filter (fun ln => ln.type == LineKind.add || ln.type == LineKind.context)).map
    (fun ln => ln.text)

/-- The splice as the spec words it: delete exactly `oldRange.count`
lines at the zero-based index `oldRange.start - 1` and insert the
replacement block there. -/
def specSplice (ls : List String) (h : PatchHunk) : List String :=
  ls.take (h.oldRange.start - 1) ++ specReplacement h ++
    ls.drop (h.oldRange.start - 1 + h.oldRange.count)

/-- Hunks applied strictly in patch order, each by the spec splice. -/
def specApplyHunks (ls : List String) (hs : List PatchHunk) : List String :=
  hs.foldl specSplice ls

/-- In-bounds side condition under which deleting `oldRange.count` lines
at `oldRange.start - 1` is meaningful, checked hunk by hunk against the
state each hunk is applied to. -/
def hunksFit : List String → List PatchHunk → Bool
  | _, [] => true
  | ls, h :: hs =>
    (decide (1 ≤ h.oldRange.start) &&
      decide (h.oldRange.start - 1 + h.oldRange.count ≤ ls.length)) &&
    hunksFit (specSplice ls h) hs

/-- The Add content as the spec words it: the text of every patch line
beginning with a plus that is not a plus-plus-plus marker line, stripped
of the leading plus, joined with newline and followed by one trailing
newline when at least one such line exists, else the empty string. -/
def specAddContent (raw : String) : String :=
  let ls := jsSplit '\n' (crlfNorm raw)
  let kept :=
    (ls.filter (fun l => jsStartsWith l "+" && !(jsStartsWith l "+++"))).map
      (fun l => jsDropStr l 1)
  if kept.isEmpty then "" else jsJoinNL kept ++ "\n"

/-! ## Concrete states used by the claims -/

/-- Workspace with a single file a.txt containing three newline-terminated
lines, as in the end-to-end scenario. -/
def fsScenario : FS := ⟨[("/ws/a.txt", "one\ntwo\nthree\n")], []⟩

/-- The end-to-end update patch of the scenario. -/
def scenarioPatch : String :=
  "*** Begin Patch\n*** Update File: a.txt\n@@ -2,1 +2,1 @@\n-two\n+TWO\n*** End Patch"

/-- Workspace where unlinking locked.txt fails with a permission error. -/
def fsLocked : FS :=
  ⟨[("/ws/locked.txt", "secret")],
   [("/ws/locked.txt", "EACCES: permission denied, unlink /ws/locked.txt")]⟩

/-- Delete patch aimed at the locked file. -/
def lockedDeletePatch : String :=
  "*** Begin Patch\n*** Delete File: locked.txt\n*** End Patch"

/-- An empty workspace. -/
def emptyFS : FS := ⟨[], []⟩

/-- Delete patch aimed at a file that does not exist. -/
def delGonePatch : String :=
  "*** Begin Patch\n*** Delete File: gone.txt\n*** End Patch"

/-- The parse of the delete patch above. -/
def delGoneParsed : ParsedPatch :=
  { op := PatchOp.delete, path := "gone.txt", newContent := none, hunks := [] }

/-- Workspace with a non-empty file f.txt, ready to be truncated. -/
def fsRewrite : FS := ⟨[("/ws/f.txt", "data")], []⟩

/-- Add patch contributing the two lines foo and bar. -/
def addTwoLinesPatch : String :=
  "*** Begin Patch\n*** Add File: f.txt\n+foo\n+bar\n*** End Patch"

/-- The parse of the add patch above. -/
def addTwoLinesParsed : ParsedPatch :=
  { op := PatchOp.add, path := "f.txt", newContent := some "foo\nbar\n", hunks := [] }

/-- A three-line file for the multi-hunk witness. -/
def c3Lines : List String := ["a", "b", "c"]

/-- Two non-overlapping hunks of differing replacement sizes: the first
replaces line 1 with two lines, the second replaces line 3 with one. -/
def c3Hunks : List PatchHunk :=
  [{ oldRange := ⟨1, 1⟩, newRange := ⟨1, 2⟩,
     lines := [⟨LineKind.remove, "a"⟩, ⟨LineKind.add, "x"⟩, ⟨LineKind.add, "y"⟩] },
   { oldRange := ⟨3, 1⟩, newRange := ⟨4, 1⟩,
     lines := [⟨LineKind.remove, "c"⟩, ⟨LineKind.add, "z"⟩] }]

/-! ## Round-trip lemmas about split and join -/

theorem splitCh_ne_nil (sep : Char) (l : List Char) : splitCh sep l ≠ [] := by
  cases l with
  | nil => simp [splitCh]
  | cons c cs =>
    simp only [splitCh]
    split
    · simp
    · split <;> simp

theorem joinCh_cons_head (sep c : Char) (r : List Char) (rs : List (List Char)) :
    joinCh sep ((c :: r) :: rs) = c :: joinCh sep (r :: rs) := by
  cases rs with
  | nil => rfl
  | cons r2 rs2 => simp [joinCh]

theorem joinCh_splitCh (sep : Char) (l : List Char) : joinCh sep (splitCh sep l) = l := by
  induction l with
  | nil => rfl
  | cons c cs ih =>
    cases h : splitCh sep cs with
    | nil => exact absurd h (splitCh_ne_nil sep cs)
    | cons r rs =>
      rw [h] at ih
      have hs : splitCh sep (c :: cs) =
          if c == sep then [] :: r :: rs else (c :: r) :: rs := by
        simp only [splitCh, h]
      rw [hs]
      by_cases hc : (c == sep) = true
      · rw [if_pos hc]
        have hceq : c = sep := by simpa using hc
        calc joinCh sep ([] :: r :: rs) = sep :: joinCh sep (r :: rs) := by simp [joinCh]
          _ = sep :: cs := by rw [ih]
          _ = c :: cs := by rw [hceq]
      · rw [if_neg hc, joinCh_cons_head, ih]

/-- Joining the newline-split fields with newline recovers the string. -/
theorem jsJoinNL_jsSplit (s : String) : jsJoinNL (jsSplit '\n' s) = s := by
  unfold jsJoinNL jsSplit
  rw [List.map_map]
  have hid : (String.data ∘ String.mk) = id := funext fun l => rfl
  rw [hid, List.map_id, joinCh_splitCh]

/-- CRLF normalization is the identity on strings with no carriage return. -/
theorem crlfL_no_cr (l : List Char) (h : '\r' ∉ l) : crlfL l = l := by
  induction l using crlfL.induct with
  | case1 => rfl
  | case2 c => rfl
  | case3 c c2 cs hcond ih =>
    have hc : c = '\r' := by
      have := hcond
      simp only [Bool.and_eq_true, beq_iff_eq] at this
      exact this.1
    exact absurd (hc ▸ List.mem_cons_self c (c2 :: cs)) h
  | case4 c c2 cs hcond ih =>
    have h2 : '\r' ∉ c2 :: cs := fun hh => h (List.mem_cons_of_mem _ hh)
    simp only [crlfL]
    rw [if_neg hcond, ih h2]

theorem crlfNorm_no_cr (s : String) (h : '\r' ∉ s.data) : crlfNorm s = s := by
  unfold crlfNorm
  rw [crlfL_no_cr s.data h]

theorem append_nl_ne (s : String) : s ++ "\n" ≠ s := by
  intro h
  have hl := congrArg (fun t => t.data.length) h
  simp at hl

/-! ## Claim theorems -/

/-- C1: the spec requires the root to act as a directory boundary, and in
particular `withinRoot` with root /a/b must reject the sibling candidate
/a/bc/evil; the code rejects ../outside as required, but its lowercased
string-prefix comparison accepts /a/bc/evil, contradicting the claim. -/
theorem C1_sibling_escape_accepted :
    withinRoot "/a/b" "../outside" =
      Except.error "Refusing to write outside root. rel=\"../outside\", root=\"/a/b\"" ∧
    withinRoot "/a/b" "../bc/evil" = Except.ok "/a/bc/evil" := by
  constructor
  · rfl
  · rfl

/-- C10: the containment check lowercases both sides before comparing, so
with root /A/B the candidate resolving to /a/b/x — which differs from the
root only in letter case and is not under the literal root /A/B — is
accepted rather than rejected with a Security error. -/
theorem C10_case_fold_accepts :
    withinRoot "/A/B" "../../a/b/x" = Except.ok "/a/b/x" ∧
    jsStartsWith "/a/b/x" "/A/B" = false ∧
    jsToLower "/A/B" = "/a/b" := by
  refine ⟨rfl, rfl, rfl⟩

/-- C2 counterexample: applying the scenario patch to /ws/a.txt does not
leave the file containing one, TWO, three with a single trailing newline:
the update pipeline appends one extra newline. -/
theorem C2_counterexample :
    readFS (handleApplyPatch "/ws" fsScenario scenarioPatch).1 "/ws/a.txt" ≠
      some "one\nTWO\nthree\n" := by
  decide

/-- C2 amended: applying the scenario patch succeeds with response
ok, path a.txt, op update, and leaves the file containing exactly
"one\nTWO\nthree\n\n" — the expected content plus one extra trailing
newline introduced by the split/join-plus-newline write-back. -/
theorem C2_amended :
    (handleApplyPatch "/ws" fsScenario scenarioPatch).2 = Resp.ok "a.txt" "update" ∧
    readFS (handleApplyPatch "/ws" fsScenario scenarioPatch).1 "/ws/a.txt" =
      some "one\nTWO\nthree\n\n" := by
  constructor
  · rfl
  · rfl

/-- C7 counterexample: when unlink fails with a permission error, the
delete request still reports success (ok, op delete) and the file stays in
place; no I/O error carrying the underlying message is returned,
contradicting the claim. -/
theorem C7_counterexample :
    handleApplyPatch "/ws" fsLocked lockedDeletePatch =
      (fsLocked, Resp.ok "locked.txt" "delete") ∧
    (handleApplyPatch "/ws" fsLocked lockedDeletePatch).2 ≠
      Resp.err "EACCES: permission denied, unlink /ws/locked.txt" := by
  constructor
  · rfl
  · decide

/-- C9: the update write-back is the CRLF-normalized original, split on
newline, rejoined with newline and followed by one appended newline; so a
zero-hunk update of a newline-terminated CR-free file is not a no-op but
appends exactly one empty line. -/
theorem C9_update_appends_newline (content : String)
    (_hn : jsEndsWith content "\n" = true) (hnr : '\r' ∉ content.data) :
    (∀ c : String, applyUpdateContent c [] = crlfNorm c ++ "\n") ∧
    applyUpdateContent content [] = content ++ "\n" ∧
    applyUpdateContent content [] ≠ content := by
  have hall : ∀ c : String, applyUpdateContent c [] = crlfNorm c ++ "\n" := by
    intro c
    unfold applyUpdateContent applyHunks
    rw [List.foldl_nil, jsJoinNL_jsSplit]
  refine ⟨hall, ?_, ?_⟩
  · rw [hall, crlfNorm_no_cr content hnr]
  · rw [hall, crlfNorm_no_cr content hnr]
    exact append_nl_ne content

/-- C9 witness: the concrete newline-terminated file "one" gains exactly
one empty line under a zero-hunk update. -/
theorem C9_witness :
    jsEndsWith "one\n" "\n" = true ∧ '\r' ∉ "one\n".data ∧
    applyUpdateContent "one\n" [] = "one\n" ++ "\n" ∧
    applyUpdateContent "one\n" [] ≠ "one\n" := by
  refine ⟨by decide, by decide, ?_, ?_⟩
  · exact (C9_update_appends_newline "one\n" (by decide) (by decide)).2.1
  · exact (C9_update_appends_newline "one\n" (by decide) (by decide)).2.2

/-! ## Hunk-splice refinement lemmas for C3 -/

theorem replacementOf_eq_spec (h : PatchHunk) : replacementOf h = specReplacement h := by
  unfold replacementOf specReplacement
  have key : ∀ (lns : List PatchHunkLine) (acc : List String),
      lns.foldl
        (fun acc ln =>
          match ln.type with
          | LineKind.add => acc ++ [ln.text]
          | LineKind.context => acc ++ [ln.text]
          | LineKind.remove => acc) acc =
      acc ++
        (lns.filter
          (fun ln => ln.type == LineKind.add || ln.type == LineKind.context)).map
          (fun ln => ln.text) := by
    intro lns
    induction lns with
    | nil => intro acc; simp
    | cons ln rest ih =>
      intro acc
      obtain ⟨k, t⟩ := ln
      cases k <;> simp [List.filter_cons, ih]
  rw [key]
  simp

theorem jsSplice_eq_specSplice (ls items : List String) (st cnt : Nat)
    (h1 : 1 ≤ st) (h2 : st - 1 + cnt ≤ ls.length) :
    jsSplice ls ((st : Int) - 1) (cnt : Int) items =
      ls.take (st - 1) ++ items ++ ls.drop (st - 1 + cnt) := by
  simp only [jsSplice]
  have hst : ¬ ((st : Int) - 1 < 0) := by omega
  rw [if_neg hst]
  have e1 : (min ((st : Int) - 1) ((ls.length : Nat) : Int)).toNat = st - 1 := by omega
  have e2 : (max 0 (min (cnt : Int)
      (((ls.length : Nat) : Int) - min ((st : Int) - 1) ((ls.length : Nat) : Int)))).toNat =
      cnt := by omega
  rw [e1, e2]

/-- C3: every update applies its hunks strictly in patch order, each at
the zero-based index oldRange.start - 1 with a replacement block of the
add and context texts in hunk-line order, deleting exactly oldRange.count
lines there, with no offset re-derivation after earlier splices — the
source fold coincides with the spec-worded fold wherever the declared
ranges fit the lines they are applied to. -/
theorem C3_hunks_in_patch_order (ls : List String) (hs : List PatchHunk)
    (hfit : hunksFit ls hs = true) :
    applyHunks ls hs = specApplyHunks ls hs := by
  induction hs generalizing ls with
  | nil => rfl
  | cons h rest ih =>
    unfold hunksFit at hfit
    simp only [Bool.and_eq_true, decide_eq_true_eq] at hfit
    obtain ⟨⟨h1, h2⟩, h3⟩ := hfit
    unfold applyHunks specApplyHunks
    simp only [List.foldl_cons]
    have hstep :
        jsSplice ls ((h.oldRange.start : Int) - 1) (h.oldRange.count : Int)
          (replacementOf h) = specSplice ls h := by
      rw [replacementOf_eq_spec]
      exact jsSplice_eq_specSplice ls (specReplacement h) h.oldRange.start h.oldRange.count h1 h2
    rw [hstep]
    exact ih (specSplice ls h) h3

/-- C3 witness: two non-overlapping replacements of differing line
counts land where the original-numbering offsets say. -/
theorem C3_witness :
    hunksFit c3Lines c3Hunks = true ∧
    applyHunks c3Lines c3Hunks = specApplyHunks c3Lines c3Hunks ∧
    applyHunks c3Lines c3Hunks = ["x", "y", "z", "c"] := by
  refine ⟨by decide, C3_hunks_in_patch_order c3Lines c3Hunks (by decide), by decide⟩

/-! ## Parser refinement for C4 -/

theorem addJoin_branch (kept : List String) :
    jsJoinNL kept ++ (if kept.isEmpty then "" else "\n") =
      if kept.isEmpty then "" else jsJoinNL kept ++ "\n" := by
  cases kept with
  | nil =>
    apply String.ext
    simp [jsJoinNL, joinCh]
  | cons a as => simp

/-- C4: the content of every parsed Add patch is exactly the spec
formula — the plus-lines that are not plus-plus-plus marker lines,
stripped and newline-joined, with one trailing newline when any exist
and the empty string otherwise. -/
theorem C4_add_content (raw : String) (p : ParsedPatch)
    (hp : parseSimplifiedPatch raw = Except.ok p) (hop : p.op = PatchOp.add) :
    p.newContent = some (specAddContent raw) := by
  simp only [parseSimplifiedPatch] at hp
  split at hp
  · exact absurd hp (by simp)
  · split at hp
    · exact absurd hp (by simp)
    · split at hp
      · exact absurd hp (by simp)
      · split at hp
        · have hq := Except.ok.inj hp
          subst hq
          simp at hop
        · have hq := Except.ok.inj hp
          subst hq
          simp only [specAddContent]
          rw [addJoin_branch]
        · have hq := Except.ok.inj hp
          subst hq
          simp at hop

/-- C4 witness: the patch adding the two lines foo and bar parses to an
Add whose content is exactly "foo\nbar\n". -/
theorem C4_witness :
    parseSimplifiedPatch addTwoLinesPatch = Except.ok addTwoLinesParsed ∧
    addTwoLinesParsed.newContent = some "foo\nbar\n" := by
  refine ⟨by rfl, ?_⟩
  have h := C4_add_content addTwoLinesPatch addTwoLinesParsed (by rfl) (by rfl)
  rw [h]
  rfl

/-- C5: when the first line of the patch text does not contain the
literal begin marker, apply_patch answers the Format error message and
the filesystem is left exactly as it was — no mutation is attempted. -/
theorem C5_missing_begin_marker (ROOT : String) (fs : FS) (raw : String)
    (h : jsIncludes ((jsSplit '\n' (crlfNorm raw)).headD "") "*** Begin Patch" = false) :
    handleApplyPatch ROOT fs raw = (fs, Resp.err "Patch missing *** Begin Patch") := by
  have h2 : jsIncludes ((jsSplit '\n' (crlfNorm raw)).head?.getD "") "*** Begin Patch" = false := by
    simpa using h
  simp [handleApplyPatch, parseSimplifiedPatch, h2]

/-- C5 witness: the text "hello" has no begin marker, is rejected, and
the workspace is untouched. -/
theorem C5_witness :
    jsIncludes ((jsSplit '\n' (crlfNorm "hello")).headD "") "*** Begin Patch" = false ∧
    handleApplyPatch "/ws" fsScenario "hello" =
      (fsScenario, Resp.err "Patch missing *** Begin Patch") :=
  ⟨by decide, C5_missing_begin_marker "/ws" fsScenario "hello" (by decide)⟩

/-- C6: a Delete patch whose resolved target is absent from the
filesystem still answers ok with op delete — delete is idempotent. -/
theorem C6_delete_nonexistent_ok (ROOT : String) (fs : FS) (raw : String) (p : ParsedPatch)
    (abs : String) (hp : parseSimplifiedPatch raw = Except.ok p)
    (hop : p.op = PatchOp.delete) (hw : withinRoot ROOT p.path = Except.ok abs)
    (hnf : readFS fs abs = none) :
    handleApplyPatch ROOT fs raw = (fs, Resp.ok p.path "delete") := by
  have hd : deleteCaught fs abs = fs := by
    unfold deleteCaught unlinkFS
    cases he : lookupA fs.unlinkErr abs with
    | some msg => simp
    | none =>
      unfold readFS at hnf
      simp [hnf]
  simp only [handleApplyPatch, hp, applyParsedPatch, hw, hop, opName, hd]

/-- C6 witness: deleting gone.txt in an empty workspace answers ok. -/
theorem C6_witness :
    parseSimplifiedPatch delGonePatch = Except.ok delGoneParsed ∧
    readFS emptyFS "/ws/gone.txt" = none ∧
    handleApplyPatch "/ws" emptyFS delGonePatch = (emptyFS, Resp.ok "gone.txt" "delete") := by
  refine ⟨by rfl, by rfl, ?_⟩
  exact C6_delete_nonexistent_ok "/ws" emptyFS delGonePatch delGoneParsed "/ws/gone.txt"
    (by rfl) (by rfl) (by rfl) (by rfl)

/-- C7 amended: when the unlink underlying a Delete fails for any reason
— nonexistence or otherwise, permission denied included — the error is
swallowed by the catch-all: the request still reports ok with op delete
and the filesystem is left unchanged; no I/O error is surfaced. -/
theorem C7_amended_unlink_error_swallowed (ROOT : String) (fs : FS) (raw : String)
    (p : ParsedPatch) (abs msg : String) (hp : parseSimplifiedPatch raw = Except.ok p)
    (hop : p.op = PatchOp.delete) (hw : withinRoot ROOT p.path = Except.ok abs)
    (he : lookupA fs.unlinkErr abs = some msg) :
    handleApplyPatch ROOT fs raw = (fs, Resp.ok p.path "delete") := by
  have hd : deleteCaught fs abs = fs := by
    unfold deleteCaught unlinkFS
    simp [he]
  simp only [handleApplyPatch, hp, applyParsedPatch, hw, hop, opName, hd]

/-- C7 amended witness: a permission-denied unlink on locked.txt is
swallowed and reported as success. -/
theorem C7_witness :
    lookupA fsLocked.unlinkErr "/ws/locked.txt" =
      some "EACCES: permission denied, unlink /ws/locked.txt" ∧
    handleApplyPatch "/ws" fsLocked lockedDeletePatch =
      (fsLocked, Resp.ok "locked.txt" "delete") := by
  refine ⟨by rfl, ?_⟩
  exact C7_amended_unlink_error_swallowed "/ws" fsLocked lockedDeletePatch
    { op := PatchOp.delete, path := "locked.txt", newContent := none, hunks := [] }
    "/ws/locked.txt" "EACCES: permission denied, unlink /ws/locked.txt"
    (by rfl) (by rfl) (by rfl) (by rfl)

/-- C8: rewrite_file with a non-blank string path whose resolution
succeeds writes the supplied content verbatim — an absent or non-string
content counting as the empty string, so an existing file is truncated —
and answers ok with op rewrite, while an absent or blank path is
rejected with the error message and no mutation. -/
theorem C8_rewrite_file (ROOT : String) (fs : FS) (p : String) (c : Option String)
    (abs : String) (hp : (jsTrim p).data.isEmpty = false)
    (hw : withinRoot ROOT p = Except.ok abs) :
    handleRewriteFile ROOT fs (some p) c =
      (writeFS fs abs (c.getD ""), Resp.ok p "rewrite") ∧
    readFS (writeFS fs abs (c.getD "")) abs = some (c.getD "") ∧
    (∀ fs2 c2, handleRewriteFile ROOT fs2 none c2 =
      (fs2, Resp.err "Missing or invalid 'path' for rewrite_file")) ∧
    (∀ fs2 c2 q, (jsTrim q).data.isEmpty = true →
      handleRewriteFile ROOT fs2 (some q) c2 =
        (fs2, Resp.err "Missing or invalid 'path' for rewrite_file")) := by
  refine ⟨?_, ?_, ?_, ?_⟩
  · simp [handleRewriteFile, hp, hw]
  · simp [readFS, writeFS, lookupA]
  · intro fs2 c2
    rfl
  · intro fs2 c2 q hq
    simp [handleRewriteFile, hq]

/-- C8 witness: rewriting the existing non-empty f.txt with empty
content truncates it to the empty string and answers ok. -/
theorem C8_witness :
    handleRewriteFile "/ws" fsRewrite (some "f.txt") (some "") =
      (writeFS fsRewrite "/ws/f.txt" "", Resp.ok "f.txt" "rewrite") ∧
    readFS (writeFS fsRewrite "/ws/f.txt" "") "/ws/f.txt" = some "" := by
  have h := C8_rewrite_file "/ws" fsRewrite "f.txt" (some "") "/ws/f.txt" (by decide) (by rfl)
  exact ⟨h.1, h.2.1⟩

end MCP
